import Mathlib

/-!
Shallow embedding of the medicine CRUD backend (src/backend/main.py).

The persisted artifact `data.json` is modelled by `FileContent`: the file may
be absent, hold unparsable JSON, hold parsable JSON whose top level is not an
object (`nonObjectTop` — `read_db` crashes there with an uncaught
`TypeError`, surfaced as a plain 500), or hold a JSON object whose
`"medicines"` key is missing, not a list, or a list of records.  Each record
is a `Med` whose `name` may be missing (JSON null / absent key) and whose
`price` may be missing or non-numeric (external corruption).  Python
`str.strip` and `str.lower` are modelled by `pyStrip` / `pyLower`; float
prices are modelled by `ℚ`.  Each HTTP endpoint becomes a pure function;
mutating endpoints return the post-state of the file together with the
outcome, so that error paths visibly leave the file untouched (the code
writes only via `write_db` just before a successful return).

For the average-price endpoint the artifact is additionally modelled by
`FileContentE`, which refines the `medicines` list to arbitrary JSON entries
(`Entry`): a non-object entry makes the loop of `get_average_price` crash
with an uncaught `AttributeError` at `med.get("price")`, again a plain 500.
A proved refinement equation shows the two embeddings agree on every store
of records.
-/

namespace MedApp

/-- Python `str.strip` on the underlying character list: drop whitespace from
the front, then from the back. -/
def stripChars (l : List Char) : List Char :=
  ((l.dropWhile Char.isWhitespace).reverse.dropWhile Char.isWhitespace).reverse

/-- Model of Python `str.strip()`. -/
def pyStrip (s : String) : String := ⟨stripChars s.data⟩

/-- Model of Python `str.lower()`. -/
def pyLower (s : String) : String := ⟨s.data.map Char.toLower⟩

/-- A JSON value sitting in a record's `price` field: a number, or anything
else (e.g. the string `"bad"`), kept with a tag so corrupted stores are
expressible. -/
inductive PriceVal where
  | num (q : ℚ)
  | nonNum (tag : String)
deriving DecidableEq, Repr

/-- A stored medicine record: both fields may be absent/corrupt. -/
structure Med where
  name : Option String
  price : Option PriceVal
deriving DecidableEq, Repr

/-- The value found under the `"medicines"` key of the document. -/
inductive MedsVal where
  | list (meds : List Med)
  | nonList
deriving DecidableEq, Repr

/-- State of the persisted `data.json` artifact.  `nonObjectTop` is a file
holding parsable JSON whose top level is not an object (e.g. `[1, 2, 3]` or
`"hello"`): on such content `read_db` crashes with an uncaught `TypeError`
at `data["medicines"] = []`, which the framework surfaces as a plain
500 Internal Server Error response. -/
inductive FileContent where
  | absent
  | invalidJson
  | nonObjectTop (tag : String)
  | doc (medicines : Option MedsVal)
deriving DecidableEq, Repr

/-- An `HTTPException`: status code and detail message. -/
structure HErr where
  status : Nat
  detail : String
deriving DecidableEq, Repr

def errEmptyName : HErr := ⟨400, "Medicine name cannot be empty."⟩
def errBadPrice : HErr := ⟨400, "Price must be a positive number greater than 0."⟩
def errDuplicate : HErr := ⟨400, "A medicine with this name already exists."⟩
def errEmptyNewName : HErr := ⟨400, "New medicine name cannot be empty."⟩
def errNotFound : HErr := ⟨404, "Medicine not found"⟩
def errCorrupt : HErr := ⟨500, "Data file is corrupted."⟩

/-- The response the framework produces for an exception the handler does not
catch (`TypeError` / `AttributeError` escaping the endpoint function). -/
def errInternal : HErr := ⟨500, "Internal Server Error"⟩

/-- The file state holding exactly the medicine list `meds`
(`{"medicines": meds}`), as written by `write_db`. -/
def store (meds : List Med) : FileContent := FileContent.doc (some (MedsVal.list meds))

/-- `read_db`: absent file yields an empty store; unparsable JSON raises the
500 data-corruption error; a parsable non-object top level crashes with an
uncaught `TypeError` (surfaced as a plain 500); a document whose `medicines`
key is missing or not a list is normalised to the empty list. -/
def read_db : FileContent → Except HErr (List Med)
  | FileContent.absent => Except.ok []
  | FileContent.invalidJson => Except.error errCorrupt
  | FileContent.nonObjectTop _ => Except.error errInternal
  | FileContent.doc none => Except.ok []
  | FileContent.doc (some MedsVal.nonList) => Except.ok []
  | FileContent.doc (some (MedsVal.list meds)) => Except.ok meds

/-- `GET /medicines`: returns the document as read. -/
def get_all_meds (fc : FileContent) : Except HErr (List Med) := read_db fc

/-- The `prices` list built by the loop in `get_average_price`: the numeric
prices, in order. -/
def collectPrices : List Med → List ℚ
  | [] => []
  | med :: rest =>
    match med.price with
    | some (PriceVal.num q) => q :: collectPrices rest
    | _ => collectPrices rest

/-- `GET /medicines/average-price`. -/
def get_average_price (fc : FileContent) : Except HErr (Option ℚ × Nat) :=
  match read_db fc with
  | Except.error e => Except.error e
  | Except.ok meds =>
    let prices := collectPrices meds
    if prices.isEmpty then Except.ok (none, 0)
    else Except.ok (some (prices.sum / (prices.length : ℚ)), prices.length)

/-- `GET /medicines/{name}`: exact, case-sensitive match on the raw stored
`name` field (`med.get("name") == name`). -/
def get_single_med (name : String) (fc : FileContent) : Except HErr Med :=
  match read_db fc with
  | Except.error e => Except.error e
  | Except.ok meds =>
    match meds.find? (fun med => med.name == some name) with
    | some med => Except.ok med
    | none => Except.error errNotFound

/-- `(m.get("name") or "").strip().lower()`: the normalised uniqueness key of
a stored record. -/
def normKey (m : Med) : String := pyLower (pyStrip (m.name.getD ""))

/-- `POST /create`.  On every raise path the file is returned unchanged; the
success path returns the file written by `write_db`. -/
def create_med (name : String) (price : ℚ) (fc : FileContent) :
    FileContent × Except HErr Unit :=
  let clean_name := pyStrip name
  if clean_name = "" then (fc, Except.error errEmptyName)
  else if price ≤ 0 then (fc, Except.error errBadPrice)
  else
    match read_db fc with
    | Except.error e => (fc, Except.error e)
    | Except.ok meds =>
      let existing_names := meds.map normKey
      if pyLower clean_name ∈ existing_names then (fc, Except.error errDuplicate)
      else (store (meds ++ [⟨some clean_name, some (PriceVal.num price)⟩]), Except.ok ())

/-- Python truthiness of the optional `new_name_clean` string. -/
def truthy : Option String → Bool
  | none => false
  | some s => !(s == "")

/-- The in-place mutation `med["name"] = new_name_clean` (only when truthy)
and `med["price"] = price`. -/
def updatedMed (m : Med) (nnc : Option String) (price : ℚ) : Med :=
  { name := if truthy nnc then nnc else m.name, price := some (PriceVal.num price) }

/-- The find-and-update loop of `update_med`: update the first record whose
normalised key is `key`; `none` when no record matches. -/
def applyUpdate (key : String) (nnc : Option String) (price : ℚ) :
    List Med → Option (List Med)
  | [] => none
  | med :: rest =>
    if normKey med = key then some (updatedMed med nnc price :: rest)
    else (applyUpdate key nnc price rest).map (fun l => med :: l)

/-- One iteration of the rename-collision loop: a non-empty stripped name
whose key equals the new key but differs from the original key. -/
def collides (newKey origKey : String) (m : Med) : Bool :=
  let en := pyStrip (m.name.getD "")
  !(en == "") && (pyLower en == newKey) && !(pyLower en == origKey)

/-- `POST /update`. -/
def update_med (name : String) (price : ℚ) (new_name : Option String)
    (fc : FileContent) : FileContent × Except HErr Unit :=
  let original_name := pyStrip name
  let new_name_clean := new_name.map pyStrip
  if original_name = "" then (fc, Except.error errEmptyName)
  else if price ≤ 0 then (fc, Except.error errBadPrice)
  else if new_name.isSome && !(truthy new_name_clean) then
    (fc, Except.error errEmptyNewName)
  else
    match read_db fc with
    | Except.error e => (fc, Except.error e)
    | Except.ok meds =>
      let original_key := pyLower original_name
      if truthy new_name_clean &&
          meds.any (collides (pyLower (new_name_clean.getD "")) original_key) then
        (fc, Except.error errDuplicate)
      else
        match applyUpdate original_key new_name_clean price meds with
        | some l => (store l, Except.ok ())
        | none => (fc, Except.error errNotFound)

/-- `DELETE /delete`. -/
def delete_med (name : String) (fc : FileContent) : FileContent × Except HErr Unit :=
  let clean_name := pyStrip name
  if clean_name = "" then (fc, Except.error errEmptyName)
  else
    match read_db fc with
    | Except.error e => (fc, Except.error e)
    | Except.ok meds =>
      let target_key := pyLower clean_name
      let remaining := meds.filter (fun med => !(normKey med == target_key))
      if remaining.length = meds.length then (fc, Except.error errNotFound)
      else (store remaining, Except.ok ())

end MedApp
namespace MedApp

lemma dropWhile_dropWhile {α : Type} (p : α → Bool) (l : List α) :
    (l.dropWhile p).dropWhile p = l.dropWhile p := by
  induction l with
  | nil => rfl
  | cons a t ih =>
    by_cases h : p a = true
    · simp [List.dropWhile_cons, h, ih]
    · simp [List.dropWhile_cons, h]

lemma dropWhile_eq_cons_self {α : Type} {p : α → Bool} {a : α} {t : List α}
    (h : List.dropWhile p (a :: t) = a :: t) : p a = false := by
  by_cases hp : p a = true
  · rw [List.dropWhile_cons, if_pos hp] at h
    have hlen := congrArg List.length h
    have hle : (List.dropWhile p t).length ≤ t.length :=
      List.Sublist.length_le (List.dropWhile_sublist (p := p) (l := t))
    simp at hlen
    omega
  · simpa using hp

lemma dropWhile_stripChars (l : List Char) :
    (stripChars l).dropWhile Char.isWhitespace = stripChars l := by
  have hdd : (l.dropWhile Char.isWhitespace).dropWhile Char.isWhitespace
      = l.dropWhile Char.isWhitespace := dropWhile_dropWhile _ l
  unfold stripChars
  cases hm : ((l.dropWhile Char.isWhitespace).reverse.dropWhile Char.isWhitespace).reverse with
  | nil => simp [hm]
  | cons a t =>
    have h2 : ((l.dropWhile Char.isWhitespace).reverse.dropWhile Char.isWhitespace).reverse ++
        ((l.dropWhile Char.isWhitespace).reverse.takeWhile Char.isWhitespace).reverse
        = l.dropWhile Char.isWhitespace := by
      have h3 := congrArg List.reverse
        (List.takeWhile_append_dropWhile Char.isWhitespace (l.dropWhile Char.isWhitespace).reverse)
      rwa [List.reverse_append, List.reverse_reverse] at h3
    rw [hm] at h2
    obtain ⟨X, h2⟩ : ∃ X, a :: t ++ X = l.dropWhile Char.isWhitespace := ⟨_, h2⟩
    have hda : l.dropWhile Char.isWhitespace = a :: (t ++ X) := by
      rw [← h2]; rfl
    have hfa : Char.isWhitespace a = false := by
      apply dropWhile_eq_cons_self (t := t ++ X)
      rw [← hda]; exact hdd
    rw [List.dropWhile_cons, hfa]
    simp

lemma stripChars_idem (l : List Char) : stripChars (stripChars l) = stripChars l := by
  have h1 := dropWhile_stripChars l
  conv_lhs => rw [stripChars]
  rw [h1, stripChars, List.reverse_reverse, dropWhile_dropWhile]

lemma pyStrip_idem (s : String) : pyStrip (pyStrip s) = pyStrip s :=
  congrArg String.mk (stripChars_idem s.data)

lemma pyLower_eq_empty_iff (s : String) : pyLower s = "" ↔ s = "" := by
  cases s with
  | mk data => simp [pyLower, String.ext_iff]

end MedApp
namespace MedApp

/-- Whether a stored record carries a numeric price. -/
def priceQ (m : Med) : Option ℚ :=
  match m.price with
  | some (PriceVal.num q) => some q
  | _ => none

lemma collectPrices_eq_filterMap (meds : List Med) :
    collectPrices meds = meds.filterMap priceQ := by
  induction meds with
  | nil => rfl
  | cons med rest ih =>
    cases hp : med.price with
    | none => simp [collectPrices, List.filterMap_cons, priceQ, hp, ih]
    | some v =>
      cases v with
      | num q => simp [collectPrices, List.filterMap_cons, priceQ, hp, ih]
      | nonNum t => simp [collectPrices, List.filterMap_cons, priceQ, hp, ih]

lemma length_filterMap_priceQ (meds : List Med) :
    (meds.filterMap priceQ).length = meds.countP (fun m => (priceQ m).isSome) := by
  induction meds with
  | nil => rfl
  | cons med rest ih =>
    cases hp : priceQ med with
    | none => simp [List.filterMap_cons, List.countP_cons, hp, ih]
    | some q => simp [List.filterMap_cons, List.countP_cons, hp, ih]

/-- The three-record store of the spec's concrete average-price example:
`[{price:10},{price:"bad"},{price:20}]`. -/
def exampleMeds : List Med :=
  [⟨none, some (PriceVal.num 10)⟩, ⟨none, some (PriceVal.nonNum "bad")⟩,
   ⟨none, some (PriceVal.num 20)⟩]

/-- C4: Get average price returns the arithmetic mean and count over exactly
the records whose price field is numeric (skipping non-numeric and missing
prices), and returns average `none` with count 0 when no numeric price
exists; on the store `[{price:10},{price:"bad"},{price:20}]` it returns
average 15 and count 2. -/
theorem get_average_price_mean (meds : List Med) :
    (get_average_price (store meds) =
      (if meds.countP (fun m => (priceQ m).isSome) = 0 then Except.ok (none, 0)
       else Except.ok
        (some ((meds.filterMap priceQ).sum /
               (meds.countP (fun m => (priceQ m).isSome) : ℚ)),
         meds.countP (fun m => (priceQ m).isSome)))) ∧
    get_average_price (store exampleMeds) = Except.ok (some 15, 2) := by
  have hread : read_db (store meds) = Except.ok meds := rfl
  have hl := length_filterMap_priceQ meds
  constructor
  · by_cases h : meds.filterMap priceQ = []
    · have h0 : meds.countP (fun m => (priceQ m).isSome) = 0 := by rw [← hl, h]; rfl
      simp [get_average_price, hread, collectPrices_eq_filterMap, h, h0]
    · have h0 : meds.countP (fun m => (priceQ m).isSome) ≠ 0 := by
        rw [← hl]; simpa [List.length_eq_zero] using h
      simp [get_average_price, hread, collectPrices_eq_filterMap, h, h0, hl]
  · have : collectPrices exampleMeds = [10, 20] := rfl
    simp [get_average_price, read_db, store, this]
    norm_num

/-- One entry of the parsed `medicines` list, before the code assumes it is a
dict: a JSON object (a record) or any other JSON value (e.g. the number `5`),
kept with a tag.  The loops of the endpoints call `.get` on each entry, which
raises `AttributeError` on a non-object. -/
inductive Entry where
  | obj (m : Med)
  | nonDict (tag : String)
deriving DecidableEq, Repr

/-- The value found under the `"medicines"` key, refined to arbitrary
entries. -/
inductive MedsValE where
  | list (entries : List Entry)
  | nonList
deriving DecidableEq, Repr

/-- The persisted artifact with the `medicines` list refined to arbitrary
JSON entries; the state space of `get_average_priceE`. -/
inductive FileContentE where
  | absent
  | invalidJson
  | nonObjectTop (tag : String)
  | doc (medicines : Option MedsValE)
deriving DecidableEq, Repr

/-- `read_db` over the refined artifact states: same branches as `read_db`,
but a document's list keeps its raw entries. -/
def read_dbE : FileContentE → Except HErr (List Entry)
  | FileContentE.absent => Except.ok []
  | FileContentE.invalidJson => Except.error errCorrupt
  | FileContentE.nonObjectTop _ => Except.error errInternal
  | FileContentE.doc none => Except.ok []
  | FileContentE.doc (some MedsValE.nonList) => Except.ok []
  | FileContentE.doc (some (MedsValE.list es)) => Except.ok es

/-- The price-collecting loop of `get_average_price` over raw entries: it
calls `med.get("price")` on every entry, so a non-object entry anywhere in
the list raises `AttributeError` (surfaced as a plain 500) instead of
producing a price list. -/
def collectPricesE : List Entry → Except HErr (List ℚ)
  | [] => Except.ok []
  | Entry.nonDict _ :: _ => Except.error errInternal
  | Entry.obj med :: rest =>
    match med.price with
    | some (PriceVal.num q) => (collectPricesE rest).map (fun ps => q :: ps)
    | _ => collectPricesE rest

/-- `GET /medicines/average-price` over the refined artifact states. -/
def get_average_priceE (fc : FileContentE) : Except HErr (Option ℚ × Nat) :=
  match read_dbE fc with
  | Except.error e => Except.error e
  | Except.ok es =>
    match collectPricesE es with
    | Except.error e => Except.error e
    | Except.ok prices =>
      if prices.isEmpty then Except.ok (none, 0)
      else Except.ok (some (prices.sum / (prices.length : ℚ)), prices.length)

lemma collectPricesE_ok_iff (es : List Entry) :
    (∃ ps, collectPricesE es = Except.ok ps) ↔
      ∀ e ∈ es, ∀ t, e ≠ Entry.nonDict t := by
  induction es with
  | nil => simp [collectPricesE]
  | cons e rest ih =>
    cases e with
    | nonDict t =>
      simp [collectPricesE]
    | obj med =>
      cases hp : med.price with
      | none =>
        rw [show collectPricesE (Entry.obj med :: rest) = collectPricesE rest by
          rw [collectPricesE, hp]]
        simp [ih]
      | some v =>
        cases v with
        | num q =>
          rw [show collectPricesE (Entry.obj med :: rest)
              = (collectPricesE rest).map (fun ps => q :: ps) by
            rw [collectPricesE, hp]]
          cases hr : collectPricesE rest with
          | error e => simp [hr, ← ih, Except.map]
          | ok ps => simp [hr, ← ih, Except.map]
        | nonNum t =>
          rw [show collectPricesE (Entry.obj med :: rest) = collectPricesE rest by
            rw [collectPricesE, hp]]
          simp [ih]

lemma collectPricesE_map_obj (meds : List Med) :
    collectPricesE (meds.map Entry.obj) = Except.ok (collectPrices meds) := by
  induction meds with
  | nil => rfl
  | cons med rest ih =>
    cases hp : med.price with
    | none =>
      rw [List.map_cons,
        show collectPricesE (Entry.obj med :: rest.map Entry.obj)
          = collectPricesE (rest.map Entry.obj) by rw [collectPricesE, hp],
        show collectPrices (med :: rest) = collectPrices rest by
          rw [collectPrices, hp]]
      exact ih
    | some v =>
      cases v with
      | num q =>
        rw [List.map_cons,
          show collectPricesE (Entry.obj med :: rest.map Entry.obj)
            = (collectPricesE (rest.map Entry.obj)).map (fun ps => q :: ps) by
            rw [collectPricesE, hp],
          show collectPrices (med :: rest) = q :: collectPrices rest by
            rw [collectPrices, hp], ih]
        rfl
      | nonNum t =>
        rw [List.map_cons,
          show collectPricesE (Entry.obj med :: rest.map Entry.obj)
            = collectPricesE (rest.map Entry.obj) by rw [collectPricesE, hp],
          show collectPrices (med :: rest) = collectPrices rest by
            rw [collectPrices, hp]]
        exact ih

/-- C5 counterexample: the average-price operation does fail on concrete
storage states — with the 500 data-corruption error on unparsable JSON, and
with a plain 500 (uncaught `TypeError` / `AttributeError`) on a parsable
non-object top level such as `[1, 2, 3]` and on a medicines list holding a
non-object entry such as `{"medicines": [5]}`. -/
theorem get_average_price_failure_cex :
    get_average_priceE FileContentE.invalidJson =
      Except.error ⟨500, "Data file is corrupted."⟩ ∧
    get_average_priceE (FileContentE.nonObjectTop "[1, 2, 3]") =
      Except.error ⟨500, "Internal Server Error"⟩ ∧
    get_average_priceE
        (FileContentE.doc (some (MedsValE.list [Entry.nonDict "5"]))) =
      Except.error ⟨500, "Internal Server Error"⟩ := ⟨rfl, rfl, rfl⟩

/-- C5 (amended): the average-price operation returns an
`{average_price, count}` result exactly on the storage states where the
content is absent or parses to a JSON object whose `medicines` member, when
it is a list, contains only JSON objects (non-numeric and missing prices are
silently skipped); on every other state — unparsable content, a parsable
non-object top level, or a medicines list with a non-object entry — it fails
with a 500 error.  On stores of records it computes exactly what the
record-level embedding `get_average_price` computes. -/
theorem get_average_price_ok_iff :
    (∀ fc : FileContentE, (∃ r, get_average_priceE fc = Except.ok r) ↔
      (fc ≠ FileContentE.invalidJson ∧ (∀ t, fc ≠ FileContentE.nonObjectTop t) ∧
       ∀ es, fc = FileContentE.doc (some (MedsValE.list es)) →
         ∀ e ∈ es, ∀ t, e ≠ Entry.nonDict t)) ∧
    (∀ meds : List Med,
      get_average_priceE (FileContentE.doc (some (MedsValE.list (meds.map Entry.obj))))
        = get_average_price (store meds)) := by
  constructor
  · intro fc
    cases fc with
    | absent =>
      simp only [get_average_priceE, read_dbE]
      simp [collectPricesE]
    | invalidJson =>
      simp [get_average_priceE, read_dbE]
    | nonObjectTop t =>
      simp only [get_average_priceE, read_dbE]
      simp
    | doc om =>
      match om with
      | none =>
        simp only [get_average_priceE, read_dbE]
        simp [collectPricesE]
      | some MedsValE.nonList =>
        simp only [get_average_priceE, read_dbE]
        simp [collectPricesE]
      | some (MedsValE.list es) =>
        constructor
        · rintro ⟨r, hr⟩
          refine ⟨by simp, by simp, ?_⟩
          intro es' hes' e he t
          obtain rfl : es = es' := by
            simpa using hes'
          cases hc : collectPricesE es with
          | error err =>
            rw [show get_average_priceE (FileContentE.doc (some (MedsValE.list es)))
                = Except.error err by
              simp [get_average_priceE, read_dbE, hc]] at hr
            exact absurd hr (by simp)
          | ok ps =>
            exact ((collectPricesE_ok_iff es).mp ⟨ps, hc⟩) e he t
        · rintro ⟨-, -, hclean⟩
          obtain ⟨ps, hps⟩ := (collectPricesE_ok_iff es).mpr (hclean es rfl)
          by_cases hemp : ps.isEmpty
          · exact ⟨(none, 0), by simp [get_average_priceE, read_dbE, hps, hemp]⟩
          · exact ⟨(some (ps.sum / (ps.length : ℚ)), ps.length),
              by simp [get_average_priceE, read_dbE, hps, hemp]⟩
  · intro meds
    have hread : read_db (store meds) = Except.ok meds := rfl
    simp [get_average_priceE, read_dbE, collectPricesE_map_obj,
      get_average_price, hread]

/-- C8: List-all returns the document shape with an empty medicines list when
the storage artifact is absent, and fails with the server-side 500
data-corruption error — never an ok result — when the persisted content is
malformed. -/
theorem get_all_meds_spec :
    get_all_meds FileContent.absent = Except.ok [] ∧
    get_all_meds FileContent.invalidJson =
      Except.error ⟨500, "Data file is corrupted."⟩ := ⟨rfl, rfl⟩

end MedApp
namespace MedApp

lemma store_inj {a b : List Med} (h : store a = store b) : a = b := by
  simpa [store] using h

/-- Characterisation of a successful create on a well-formed store. -/
lemma create_ok_iff (name : String) (price : ℚ) (meds l : List Med) :
    create_med name price (store meds) = (store l, Except.ok ()) ↔
      pyStrip name ≠ "" ∧ 0 < price ∧
      (∀ m ∈ meds, normKey m ≠ pyLower (pyStrip name)) ∧
      l = meds ++ [⟨some (pyStrip name), some (PriceVal.num price)⟩] := by
  have hread : read_db (store meds) = Except.ok meds := rfl
  by_cases h1 : pyStrip name = ""
  · simp [create_med, h1, Prod.ext_iff]
  · by_cases h2 : price ≤ 0
    · have h2' : ¬ (0 < price) := not_lt.mpr h2
      simp [create_med, h1, h2, h2', Prod.ext_iff]
    · have h2' : 0 < price := lt_of_not_le h2
      by_cases h3 : pyLower (pyStrip name) ∈ meds.map normKey
      · have h3' : ¬ ∀ m ∈ meds, normKey m ≠ pyLower (pyStrip name) := by
          rw [List.mem_map] at h3
          obtain ⟨m, hm, hk⟩ := h3
          intro hall
          exact hall m hm hk
        simp [create_med, h1, h2, hread, h3, Prod.ext_iff, h2', h3']
      · have h3' : ∀ m ∈ meds, normKey m ≠ pyLower (pyStrip name) := by
          intro m hm hk
          exact h3 (List.mem_map.mpr ⟨m, hm, hk⟩)
        simp only [create_med, h1, h2, hread, h3, if_neg, if_false, ite_false]
        simp only [Prod.ext_iff, store, FileContent.doc.injEq, Option.some.injEq,
          MedsVal.list.injEq]
        constructor
        · rintro ⟨hl, -⟩
          exact ⟨h1, h2', h3', hl.symm⟩
        · rintro ⟨-, -, -, hl⟩
          exact ⟨hl.symm, trivial⟩
end MedApp
namespace MedApp

/-- C1: Create trims the submitted name; it fails with the 400 empty-name
validation error when the trimmed name is empty, with the 400 price
validation error when the price is not strictly greater than 0, and with the
400 conflict error when some stored record's normalised name matches the
trimmed name case-insensitively; otherwise the record
`{name: trimmed name, price}` is appended at the end of the list and the
document is persisted.  Every failure leaves the file untouched. -/
theorem create_med_correct (name : String) (price : ℚ) (meds : List Med) :
    (pyStrip name = "" →
      create_med name price (store meds) =
        (store meds, Except.error ⟨400, "Medicine name cannot be empty."⟩)) ∧
    (pyStrip name ≠ "" → price ≤ 0 →
      create_med name price (store meds) =
        (store meds, Except.error ⟨400, "Price must be a positive number greater than 0."⟩)) ∧
    (pyStrip name ≠ "" → 0 < price →
      (∃ m ∈ meds, normKey m = pyLower (pyStrip name)) →
      create_med name price (store meds) =
        (store meds, Except.error ⟨400, "A medicine with this name already exists."⟩)) ∧
    (pyStrip name ≠ "" → 0 < price →
      (∀ m ∈ meds, normKey m ≠ pyLower (pyStrip name)) →
      create_med name price (store meds) =
        (store (meds ++ [⟨some (pyStrip name), some (PriceVal.num price)⟩]),
         Except.ok ())) := by
  have hread : read_db (store meds) = Except.ok meds := rfl
  refine ⟨?_, ?_, ?_, ?_⟩
  · intro h1
    simp [create_med, h1, errEmptyName]
  · intro h1 h2
    simp [create_med, h1, h2, errBadPrice]
  · intro h1 h2 h3
    have h3' : pyLower (pyStrip name) ∈ meds.map normKey := by
      obtain ⟨m, hm, hk⟩ := h3
      exact List.mem_map.mpr ⟨m, hm, hk⟩
    have h2' : ¬ price ≤ 0 := not_le.mpr h2
    simp [create_med, h1, h2', hread, h3', errDuplicate]
  · intro h1 h2 h3
    exact (create_ok_iff name price meds _).mpr ⟨h1, h2, h3, rfl⟩

/-- Closed witness for C1: creating `"Aspirin"` at price 5 in the empty store
succeeds and appends the record. -/
theorem create_med_correct_witness :
    create_med "Aspirin" 5 (store []) =
      (store [⟨some "Aspirin", some (PriceVal.num 5)⟩], Except.ok ()) :=
  (create_med_correct "Aspirin" 5 []).2.2.2 (by decide) (by norm_num)
    (by intro m hm; simp at hm)

end MedApp
namespace MedApp

lemma normKey_of_name (s : String) (p : Option PriceVal) :
    normKey ⟨some s, p⟩ = pyLower (pyStrip s) := rfl

lemma normKey_stripped (s : String) (p : Option PriceVal) :
    normKey ⟨some (pyStrip s), p⟩ = pyLower (pyStrip s) := by
  rw [normKey_of_name, pyStrip_idem]

/-- C9: round trip.  A successful create stores the trimmed name with the
given price, and fetching that exact name afterwards returns exactly that
record; moreover Get-by-name is an exact, case-sensitive match — it returns
404 whenever no stored record's raw name equals the requested one. -/
theorem create_then_get (name : String) (price : ℚ) (meds l : List Med)
    (h : create_med name price (store meds) = (store l, Except.ok ())) :
    get_single_med (pyStrip name) (store l) =
      Except.ok ⟨some (pyStrip name), some (PriceVal.num price)⟩ ∧
    ∀ (n : String) (meds' : List Med), (∀ m ∈ meds', m.name ≠ some n) →
      get_single_med n (store meds') = Except.error ⟨404, "Medicine not found"⟩ := by
  obtain ⟨h1, h2, h3, hl⟩ := (create_ok_iff name price meds l).mp h
  constructor
  · have hread : read_db (store l) = Except.ok l := rfl
    have hnone : l.find? (fun med => med.name == some (pyStrip name)) =
        some ⟨some (pyStrip name), some (PriceVal.num price)⟩ := by
      rw [hl, List.find?_append]
      have hfirst : meds.find? (fun med => med.name == some (pyStrip name)) = none := by
        rw [List.find?_eq_none]
        intro m hm hmatch
        have hname : m.name = some (pyStrip name) := by
          simpa using hmatch
        apply h3 m hm
        show pyLower (pyStrip (m.name.getD "")) = pyLower (pyStrip name)
        rw [hname, Option.getD_some, pyStrip_idem]
      rw [hfirst, Option.none_or]
      simp [List.find?]
    simp only [get_single_med, hread, hnone]
  · intro n meds' hall
    have hread : read_db (store meds') = Except.ok meds' := rfl
    have hnone : meds'.find? (fun med => med.name == some n) = none := by
      rw [List.find?_eq_none]
      intro m hm hmatch
      exact hall m hm (by simpa using hmatch)
    simp only [get_single_med, hread, hnone, errNotFound]

/-- Closed witness for C9 at a concrete create. -/
theorem create_then_get_witness :
    get_single_med "Aspirin" (store [⟨some "Aspirin", some (PriceVal.num 5)⟩]) =
      Except.ok ⟨some "Aspirin", some (PriceVal.num 5)⟩ :=
  (create_then_get "Aspirin" 5 [] [⟨some "Aspirin", some (PriceVal.num 5)⟩] rfl).1

end MedApp
namespace MedApp

lemma filter_length_eq_iff {α : Type} (p : α → Bool) (l : List α) :
    (l.filter p).length = l.length ↔ ∀ a ∈ l, p a := by
  induction l with
  | nil => simp
  | cons a t ih =>
    by_cases h : p a = true
    · simp [List.filter_cons, h, ih]
    · simp only [List.filter_cons, h, Bool.false_eq_true, if_false, List.length_cons,
        List.mem_cons]
      constructor
      · intro hlen
        exfalso
        have hle := List.length_filter_le p t
        omega
      · intro hall
        exact absurd (hall a (Or.inl rfl)) (by simpa using h)

lemma delete_filter_pred (key : String) :
    (fun (med : Med) => !(normKey med == key)) =
      (fun (med : Med) => decide (normKey med ≠ key)) := by
  funext m
  by_cases h : normKey m = key <;> simp [h]

/-- C3: for a delete call with non-empty trimmed name, exactly the stored
records whose normalised (trimmed, lowercased) name equals the normalised
target are removed; when no record matches, the call fails with 404 and the
persisted store is exactly what it was; otherwise the filtered list is
persisted. -/
theorem delete_med_correct (name : String) (meds : List Med)
    (h : pyStrip name ≠ "") :
    ((∀ m ∈ meds, normKey m ≠ pyLower (pyStrip name)) →
      delete_med name (store meds) =
        (store meds, Except.error ⟨404, "Medicine not found"⟩)) ∧
    ((∃ m ∈ meds, normKey m = pyLower (pyStrip name)) →
      delete_med name (store meds) =
        (store (meds.filter (fun m => decide (normKey m ≠ pyLower (pyStrip name)))),
         Except.ok ())) := by
  have hread : read_db (store meds) = Except.ok meds := rfl
  constructor
  · intro hall
    have hfull : (meds.filter
        (fun med => !(normKey med == pyLower (pyStrip name)))).length = meds.length := by
      rw [filter_length_eq_iff]
      intro m hm
      simpa using hall m hm
    simp [delete_med, h, hread, hfull, errNotFound]
  · intro hex
    have hne : (meds.filter
        (fun med => !(normKey med == pyLower (pyStrip name)))).length ≠ meds.length := by
      rw [Ne, filter_length_eq_iff]
      intro hall
      obtain ⟨m, hm, hk⟩ := hex
      have := hall m hm
      simp [hk] at this
    simp [delete_med, h, hread, hne, delete_filter_pred]
    exact hex

/-- Closed witness for C3: deleting `" aspirin"` from a one-record store
removes the case-insensitive match and persists the filtered list. -/
theorem delete_med_correct_witness :
    delete_med " aspirin" (store [⟨some "Aspirin", some (PriceVal.num 5)⟩]) =
      (store [], Except.ok ()) := by
  have h := (delete_med_correct " aspirin"
    [⟨some "Aspirin", some (PriceVal.num 5)⟩] (by decide)).2
    ⟨⟨some "Aspirin", some (PriceVal.num 5)⟩, by simp, by decide⟩
  simpa using h

end MedApp
namespace MedApp

lemma pyLower_empty : pyLower "" = "" := rfl

lemma applyUpdate_eq_none_iff (key : String) (nnc : Option String) (price : ℚ)
    (meds : List Med) :
    applyUpdate key nnc price meds = none ↔ ∀ m ∈ meds, normKey m ≠ key := by
  induction meds with
  | nil => simp [applyUpdate]
  | cons med rest ih =>
    by_cases hk : normKey med = key
    · simp [applyUpdate, hk]
    · simp [applyUpdate, hk, ih]

lemma applyUpdate_eq_some (key : String) (nnc : Option String) (price : ℚ)
    (meds l : List Med) (h : applyUpdate key nnc price meds = some l) :
    ∃ A m₀ B, meds = A ++ m₀ :: B ∧ (∀ m ∈ A, normKey m ≠ key) ∧
      normKey m₀ = key ∧ l = A ++ updatedMed m₀ nnc price :: B := by
  induction meds generalizing l with
  | nil => simp [applyUpdate] at h
  | cons med rest ih =>
    by_cases hk : normKey med = key
    · rw [applyUpdate, if_pos hk, Option.some.injEq] at h
      exact ⟨[], med, rest, rfl, by simp, hk, by simp [h.symm]⟩
    · rw [applyUpdate, if_neg hk] at h
      cases hr : applyUpdate key nnc price rest with
      | none => rw [hr] at h; simp at h
      | some l' =>
        rw [hr] at h
        obtain rfl : med :: l' = l := by simpa using h
        obtain ⟨A, m₀, B, hm, hA, hk₀, hl⟩ := ih l' hr
        refine ⟨med :: A, m₀, B, by simp [hm], ?_, hk₀, by simp [hl]⟩
        intro m hm'
        rcases List.mem_cons.mp hm' with h' | h'
        · subst h'; exact hk
        · exact hA m h'

lemma collides_iff (m : Med) (newKey origKey : String) (hnk : newKey ≠ "") :
    collides newKey origKey m = true ↔
      normKey m = newKey ∧ normKey m ≠ origKey := by
  by_cases he : pyStrip (m.name.getD "") = ""
  · have hmk : normKey m = "" := by
      simp [normKey, he, pyLower_empty]
    simp [collides, he, hmk]
    intro hk
    exact absurd hk.symm hnk
  · simp [collides, normKey, he, Bool.and_eq_true]

end MedApp
namespace MedApp

/-- C2: for an update that supplies a new name (with valid current name,
price, and non-empty trimmed new name), the rename-collision check rejects
with the 400 duplicate error exactly when some stored record's normalised
(trimmed, lowercased) name equals the normalised new name while differing
from the normalised current name; in particular renaming a record to its own
current name in a different case succeeds, the exemption being by key
comparison, not record identity. -/
theorem update_rename_collision (name nn : String) (price : ℚ) (meds : List Med)
    (h1 : pyStrip name ≠ "") (h2 : 0 < price) (h3 : pyStrip nn ≠ "") :
    ((update_med name price (some nn) (store meds)).2 =
        Except.error ⟨400, "A medicine with this name already exists."⟩ ↔
      ∃ m ∈ meds, normKey m = pyLower (pyStrip nn) ∧
        normKey m ≠ pyLower (pyStrip name)) ∧
    (pyLower (pyStrip nn) = pyLower (pyStrip name) →
      (∃ m ∈ meds, normKey m = pyLower (pyStrip name)) →
      (update_med name price (some nn) (store meds)).2 = Except.ok ()) := by
  have h2' : ¬ price ≤ 0 := not_le.mpr h2
  have htr : truthy (Option.map pyStrip (some nn)) = true := by
    simp [truthy, h3]
  have htr' : truthy (some (pyStrip nn)) = true := htr
  have hread : read_db (store meds) = Except.ok meds := rfl
  have hnk : pyLower (pyStrip nn) ≠ "" := by
    rw [Ne, pyLower_eq_empty_iff]; exact h3
  have hkey : pyLower ((Option.map pyStrip (some nn)).getD "") = pyLower (pyStrip nn) := rfl
  constructor
  · by_cases hany :
        meds.any (collides (pyLower (pyStrip nn)) (pyLower (pyStrip name))) = true
    · have hex : ∃ m ∈ meds, normKey m = pyLower (pyStrip nn) ∧
          normKey m ≠ pyLower (pyStrip name) := by
        obtain ⟨m, hm, hc⟩ := List.any_eq_true.mp hany
        exact ⟨m, hm, (collides_iff m _ _ hnk).mp hc⟩
      simp [update_med, h1, h2', htr, htr', hread, hany, hex, errDuplicate]
    · have hnex : ¬ ∃ m ∈ meds, normKey m = pyLower (pyStrip nn) ∧
          normKey m ≠ pyLower (pyStrip name) := by
        intro ⟨m, hm, hc⟩
        exact hany (List.any_eq_true.mpr ⟨m, hm, (collides_iff m _ _ hnk).mpr hc⟩)
      simp only [update_med, h1, h2', htr, hread, hany, hkey, if_neg, ite_false,
        Bool.and_true, Bool.and_false, Bool.true_and, Bool.false_and]
      cases hap : applyUpdate (pyLower (pyStrip name)) (Option.map pyStrip (some nn))
          price meds with
      | none => simp [hap, hnex, errNotFound]
      | some l => simp [hap, hnex]
  · intro heq hex
    have hany :
        meds.any (collides (pyLower (pyStrip nn)) (pyLower (pyStrip name))) = false := by
      rw [← Bool.not_eq_true, List.any_eq_true]
      intro ⟨m, hm, hc⟩
      have := (collides_iff m _ _ hnk).mp hc
      rw [heq] at this
      exact this.2 this.1
    have hap : ∃ l, applyUpdate (pyLower (pyStrip name)) (Option.map pyStrip (some nn))
        price meds = some l := by
      cases hap' : applyUpdate (pyLower (pyStrip name)) (Option.map pyStrip (some nn))
          price meds with
      | none =>
        obtain ⟨m, hm, hk⟩ := hex
        exact absurd ((applyUpdate_eq_none_iff _ _ _ _).mp hap' m hm) (by simp [hk])
      | some l => exact ⟨l, rfl⟩
    obtain ⟨l, hap⟩ := hap
    have hap' : applyUpdate (pyLower (pyStrip name)) (some (pyStrip nn)) price meds
        = some l := hap
    simp [update_med, h1, h2', htr, htr', hread, hany, hap, hap']

/-- Closed witness for C2: renaming `"Aspirin"` to `"ASPIRIN"` (its own name
in a different case) succeeds even though a case-insensitive match exists. -/
theorem update_rename_collision_witness :
    (update_med "aspirin" 3 (some "ASPIRIN")
      (store [⟨some "Aspirin", some (PriceVal.num 5)⟩])).2 = Except.ok () :=
  (update_rename_collision "aspirin" "ASPIRIN" 3
      [⟨some "Aspirin", some (PriceVal.num 5)⟩]
      (by decide) (by norm_num) (by decide)).2 (by decide)
    ⟨⟨some "Aspirin", some (PriceVal.num 5)⟩, by simp, by decide⟩

end MedApp
namespace MedApp

/-- What a successful update guarantees: the find-and-update loop fired, and
when a rename was requested the collision scan came back clean. -/
lemma update_ok_inv (name : String) (price : ℚ) (onn : Option String)
    (meds l : List Med)
    (h : update_med name price onn (store meds) = (store l, Except.ok ())) :
    applyUpdate (pyLower (pyStrip name)) (onn.map pyStrip) price meds = some l ∧
      (truthy (onn.map pyStrip) = true →
        meds.any (collides (pyLower ((onn.map pyStrip).getD ""))
          (pyLower (pyStrip name))) = false) := by
  by_cases h1 : pyStrip name = ""
  · simp [update_med, h1] at h
  by_cases h2 : price ≤ 0
  · simp [update_med, h1, h2] at h
  by_cases h3 : (onn.isSome && !(truthy (onn.map pyStrip))) = true
  · simp only [update_med, h1, h2, h3] at h
    simp at h
  by_cases h4 : (truthy (onn.map pyStrip) &&
      meds.any (collides (pyLower ((onn.map pyStrip).getD ""))
        (pyLower (pyStrip name)))) = true
  · simp only [update_med, read_db, store, h1, h2, h3, h4] at h
    simp [h1, h2, h3, h4] at h
  cases hap : applyUpdate (pyLower (pyStrip name)) (onn.map pyStrip) price meds with
  | none =>
    simp only [update_med, read_db, store] at h
    simp [h1, h2, h3, h4, hap] at h
  | some l' =>
    simp only [update_med, read_db, store] at h
    simp [h1, h2, h3, h4, hap] at h
    refine ⟨congrArg some h, ?_⟩
    intro htr
    rw [Bool.and_eq_true] at h4
    push_neg at h4
    have := h4 htr
    simpa using this

end MedApp
namespace MedApp

/-- C10: frame of update.  A successful update rewrites the store as
`A ++ [updated record] ++ B` where the original store was `A ++ [m₀] ++ B`,
`m₀` is the first record whose trimmed, lowercased name equals the
normalised current name (no record of `A` matches), only `m₀`'s name/price
change, and the length is unchanged — every other record keeps its name,
price and position. -/
theorem update_med_frame (name : String) (price : ℚ) (onn : Option String)
    (meds l : List Med)
    (h : update_med name price onn (store meds) = (store l, Except.ok ())) :
    ∃ A m₀ B, meds = A ++ m₀ :: B ∧
      (∀ m ∈ A, normKey m ≠ pyLower (pyStrip name)) ∧
      normKey m₀ = pyLower (pyStrip name) ∧
      l = A ++ updatedMed m₀ (onn.map pyStrip) price :: B ∧
      l.length = meds.length := by
  obtain ⟨hap, -⟩ := update_ok_inv name price onn meds l h
  obtain ⟨A, m₀, B, hm, hA, hk, hl⟩ := applyUpdate_eq_some _ _ _ _ _ hap
  exact ⟨A, m₀, B, hm, hA, hk, hl, by simp [hm, hl]⟩

/-- Closed witness for C10 at a concrete price-only update of the first of
two records. -/
theorem update_med_frame_witness :
    ∃ A m₀ B,
      ([⟨some "Aspirin", some (PriceVal.num 5)⟩,
        ⟨some "B", some (PriceVal.num 1)⟩] : List Med) = A ++ m₀ :: B ∧
      (∀ m ∈ A, normKey m ≠ pyLower (pyStrip "Aspirin")) ∧
      normKey m₀ = pyLower (pyStrip "Aspirin") ∧
      ([⟨some "Aspirin", some (PriceVal.num 7)⟩,
        ⟨some "B", some (PriceVal.num 1)⟩] : List Med) =
        A ++ updatedMed m₀ ((none : Option String).map pyStrip) 7 :: B ∧
      ([⟨some "Aspirin", some (PriceVal.num 7)⟩,
        ⟨some "B", some (PriceVal.num 1)⟩] : List Med).length =
        ([⟨some "Aspirin", some (PriceVal.num 5)⟩,
          ⟨some "B", some (PriceVal.num 1)⟩] : List Med).length :=
  update_med_frame "Aspirin" 7 none
    [⟨some "Aspirin", some (PriceVal.num 5)⟩, ⟨some "B", some (PriceVal.num 1)⟩]
    [⟨some "Aspirin", some (PriceVal.num 7)⟩, ⟨some "B", some (PriceVal.num 1)⟩]
    rfl

lemma create_shape (name : String) (price : ℚ) (fc : FileContent) :
    (∃ e, create_med name price fc = (fc, Except.error e)) ∨
    ∃ l, create_med name price fc = (store l, Except.ok ()) := by
  by_cases h1 : pyStrip name = ""
  · exact Or.inl ⟨errEmptyName, by simp [create_med, h1]⟩
  by_cases h2 : price ≤ 0
  · exact Or.inl ⟨errBadPrice, by simp [create_med, h1, h2]⟩
  cases hr : read_db fc with
  | error e => exact Or.inl ⟨e, by simp [create_med, h1, h2, hr]⟩
  | ok meds =>
    by_cases h3 : pyLower (pyStrip name) ∈ meds.map normKey
    · exact Or.inl ⟨errDuplicate, by simp [create_med, h1, h2, hr, h3]⟩
    · exact Or.inr ⟨meds ++ [⟨some (pyStrip name), some (PriceVal.num price)⟩],
        by simp [create_med, h1, h2, hr, h3]⟩

lemma update_shape (name : String) (price : ℚ) (onn : Option String)
    (fc : FileContent) :
    (∃ e, update_med name price onn fc = (fc, Except.error e)) ∨
    ∃ l, update_med name price onn fc = (store l, Except.ok ()) := by
  by_cases h1 : pyStrip name = ""
  · exact Or.inl ⟨errEmptyName, by simp [update_med, h1]⟩
  by_cases h2 : price ≤ 0
  · exact Or.inl ⟨errBadPrice, by simp [update_med, h1, h2]⟩
  by_cases h3 : (onn.isSome && !(truthy (onn.map pyStrip))) = true
  · exact Or.inl ⟨errEmptyNewName, by simp only [update_med, h1, h2, h3]; simp [h1, h2]⟩
  cases hr : read_db fc with
  | error e => exact Or.inl ⟨e, by simp [update_med, h1, h2, h3, hr]⟩
  | ok meds =>
    by_cases h4 : (truthy (onn.map pyStrip) &&
        meds.any (collides (pyLower ((onn.map pyStrip).getD ""))
          (pyLower (pyStrip name)))) = true
    · exact Or.inl ⟨errDuplicate, by
        simp only [update_med, h1, h2, h3, hr, h4]
        simp [h1, h2]⟩
    · cases hap : applyUpdate (pyLower (pyStrip name)) (onn.map pyStrip) price meds with
      | none => exact Or.inl ⟨errNotFound, by simp [update_med, h1, h2, h3, hr, h4, hap]⟩
      | some l => exact Or.inr ⟨l, by simp [update_med, h1, h2, h3, hr, h4, hap]⟩

lemma delete_shape (name : String) (fc : FileContent) :
    (∃ e, delete_med name fc = (fc, Except.error e)) ∨
    ∃ l, delete_med name fc = (store l, Except.ok ()) := by
  by_cases h1 : pyStrip name = ""
  · exact Or.inl ⟨errEmptyName, by simp [delete_med, h1]⟩
  cases hr : read_db fc with
  | error e => exact Or.inl ⟨e, by simp [delete_med, h1, hr]⟩
  | ok meds =>
    by_cases h2 : (meds.filter
        (fun med => !(normKey med == pyLower (pyStrip name)))).length = meds.length
    · exact Or.inl ⟨errNotFound, by simp [delete_med, h1, hr, h2]⟩
    · exact Or.inr ⟨meds.filter (fun med => !(normKey med == pyLower (pyStrip name))),
        by simp [delete_med, h1, hr, h2]⟩

/-- C6: every mutating operation is atomic — whenever it fails, the persisted
file is exactly the pre-state; whenever it succeeds, the whole document is
rewritten as one unit (the post-state is a full `store`). -/
theorem mutators_atomic (name : String) (price : ℚ) (onn : Option String)
    (fc : FileContent) :
    ((create_med name price fc).2.isOk = false → (create_med name price fc).1 = fc) ∧
    ((create_med name price fc).2.isOk = true →
      ∃ l, (create_med name price fc).1 = store l) ∧
    ((update_med name price onn fc).2.isOk = false →
      (update_med name price onn fc).1 = fc) ∧
    ((update_med name price onn fc).2.isOk = true →
      ∃ l, (update_med name price onn fc).1 = store l) ∧
    ((delete_med name fc).2.isOk = false → (delete_med name fc).1 = fc) ∧
    ((delete_med name fc).2.isOk = true → ∃ l, (delete_med name fc).1 = store l) := by
  refine ⟨?_, ?_, ?_, ?_, ?_, ?_⟩
  · intro h
    rcases create_shape name price fc with ⟨e, he⟩ | ⟨l, hl⟩
    · rw [he]
    · rw [hl] at h; simp [Except.isOk, Except.toBool] at h
  · intro h
    rcases create_shape name price fc with ⟨e, he⟩ | ⟨l, hl⟩
    · rw [he] at h; simp [Except.isOk, Except.toBool] at h
    · exact ⟨l, by rw [hl]⟩
  · intro h
    rcases update_shape name price onn fc with ⟨e, he⟩ | ⟨l, hl⟩
    · rw [he]
    · rw [hl] at h; simp [Except.isOk, Except.toBool] at h
  · intro h
    rcases update_shape name price onn fc with ⟨e, he⟩ | ⟨l, hl⟩
    · rw [he] at h; simp [Except.isOk, Except.toBool] at h
    · exact ⟨l, by rw [hl]⟩
  · intro h
    rcases delete_shape name fc with ⟨e, he⟩ | ⟨l, hl⟩
    · rw [he]
    · rw [hl] at h; simp [Except.isOk, Except.toBool] at h
  · intro h
    rcases delete_shape name fc with ⟨e, he⟩ | ⟨l, hl⟩
    · rw [he] at h; simp [Except.isOk, Except.toBool] at h
    · exact ⟨l, by rw [hl]⟩

/-- Closed witness for C6: a failed create (empty name) leaves an absent file
absent. -/
theorem mutators_atomic_witness :
    (create_med "" 1 FileContent.absent).1 = FileContent.absent :=
  (mutators_atomic "" 1 none FileContent.absent).1 rfl

end MedApp
namespace MedApp

lemma normKey_updatedMed_of_not_truthy (m : Med) (nnc : Option String) (price : ℚ)
    (h : truthy nnc = false) : normKey (updatedMed m nnc price) = normKey m := by
  simp [updatedMed, normKey, h]

lemma updatedMed_name_of_truthy (m : Med) (nnc : Option String) (price : ℚ)
    (h : truthy nnc = true) :
    ∃ s, nnc = some s ∧ s ≠ "" ∧ (updatedMed m nnc price).name = some s := by
  cases nnc with
  | none => simp [truthy] at h
  | some s =>
    exact ⟨s, rfl, by simpa [truthy] using h, by simp [updatedMed, h]⟩

lemma pyStrip_of_map (onn : Option String) (s : String)
    (h : onn.map pyStrip = some s) : pyStrip s = s := by
  cases onn with
  | none => simp at h
  | some t =>
    rw [Option.map_some'] at h
    rw [← Option.some.injEq] at h
    have hts : pyStrip t = s := Option.some.injEq _ _ ▸ (by simpa using h)
    rw [← hts, pyStrip_idem]

lemma delete_ok_eq (name : String) (meds l : List Med)
    (h : delete_med name (store meds) = (store l, Except.ok ())) :
    l = meds.filter (fun med => !(normKey med == pyLower (pyStrip name))) := by
  by_cases h1 : pyStrip name = ""
  · simp [delete_med, h1] at h
  by_cases h2 : (meds.filter
      (fun med => !(normKey med == pyLower (pyStrip name)))).length = meds.length
  · simp [delete_med, read_db, store, h1, h2] at h
  · simp [delete_med, read_db, store, h1, h2] at h
    exact h.symm

/-- The store invariant of the spec: no two records share a normalised
(trimmed, lowercased) name, and every record has a non-empty trimmed name. -/
def StoreInv (meds : List Med) : Prop :=
  meds.Pairwise (fun a b => normKey a ≠ normKey b) ∧
  ∀ m ∈ meds, pyStrip (m.name.getD "") ≠ ""

end MedApp
namespace MedApp

/-- C7: the store invariant — pairwise-distinct normalised names and
non-empty trimmed names — is preserved by every successful create, update
and delete, assuming it holds before the call. -/
theorem store_invariant_preserved (meds : List Med) (hinv : StoreInv meds) :
    (∀ name price l,
      create_med name price (store meds) = (store l, Except.ok ()) → StoreInv l) ∧
    (∀ name price onn l,
      update_med name price onn (store meds) = (store l, Except.ok ()) → StoreInv l) ∧
    (∀ name l,
      delete_med name (store meds) = (store l, Except.ok ()) → StoreInv l) := by
  refine ⟨?_, ?_, ?_⟩
  · -- create
    intro name price l h
    obtain ⟨h1, h2, h3, hl⟩ := (create_ok_iff name price meds l).mp h
    subst hl
    constructor
    · rw [List.pairwise_append]
      refine ⟨hinv.1, by simp, ?_⟩
      intro a ha b hb
      rw [List.mem_singleton] at hb
      subst hb
      rw [normKey_stripped]
      exact h3 a ha
    · intro m hm
      rcases List.mem_append.mp hm with hm | hm
      · exact hinv.2 m hm
      · rw [List.mem_singleton] at hm
        subst hm
        show pyStrip ((some (pyStrip name)).getD "") ≠ ""
        rw [Option.getD_some, pyStrip_idem]
        exact h1
  · -- update
    intro name price onn l h
    obtain ⟨hap, hcol⟩ := update_ok_inv name price onn meds l h
    obtain ⟨A, m₀, B, hm, hA, hk, hl⟩ := applyUpdate_eq_some _ _ _ _ _ hap
    subst hl
    have hP : List.Pairwise (fun a b => normKey a ≠ normKey b) (A ++ m₀ :: B) := by
      rw [← hm]; exact hinv.1
    have hN : ∀ m ∈ A ++ m₀ :: B, pyStrip (m.name.getD "") ≠ "" := by
      rw [← hm]; exact hinv.2
    rw [List.pairwise_append] at hP
    obtain ⟨hPA, hPmB, hPcross⟩ := hP
    rw [List.pairwise_cons] at hPmB
    obtain ⟨hm₀B, hPB⟩ := hPmB
    have hother : ∀ x, (x ∈ A ∨ x ∈ B) →
        normKey x ≠ normKey (updatedMed m₀ (onn.map pyStrip) price) := by
      intro x hx
      have hxAB : x ∈ A ++ m₀ :: B := by
        rcases hx with hx | hx
        · exact List.mem_append_left _ hx
        · exact List.mem_append_right _ (List.mem_cons_of_mem _ hx)
      have hxmeds : x ∈ meds := by rw [hm]; exact hxAB
      have hne_m₀ : normKey x ≠ normKey m₀ := by
        rcases hx with hx | hx
        · exact hPcross x hx m₀ (List.mem_cons_self _ _)
        · exact fun he => hm₀B x hx he.symm
      cases htr : truthy (onn.map pyStrip) with
      | false =>
        rw [normKey_updatedMed_of_not_truthy _ _ _ htr]
        exact hne_m₀
      | true =>
        obtain ⟨s, hs, hsne, hname⟩ := updatedMed_name_of_truthy m₀ (onn.map pyStrip) price htr
        have hss : pyStrip s = s := pyStrip_of_map onn s hs
        have hkey_upd : normKey (updatedMed m₀ (onn.map pyStrip) price) = pyLower s := by
          show pyLower (pyStrip ((updatedMed m₀ (onn.map pyStrip) price).name.getD "")) = _
          rw [hname, Option.getD_some, hss]
        rw [hkey_upd]
        intro hxs
        have hnewKey_ne : pyLower ((onn.map pyStrip).getD "") ≠ "" := by
          rw [hs]
          show pyLower s ≠ ""
          rw [Ne, pyLower_eq_empty_iff]
          exact hsne
        have hx_orig : normKey x = pyLower (pyStrip name) := by
          by_contra hneq
          have hc : collides (pyLower ((onn.map pyStrip).getD ""))
              (pyLower (pyStrip name)) x = true := by
            apply (collides_iff x _ _ hnewKey_ne).mpr
            constructor
            · rw [hs]
              show normKey x = pyLower s
              exact hxs
            · exact hneq
          have hany := List.any_eq_true.mpr ⟨x, hxmeds, hc⟩
          rw [hcol htr] at hany
          exact Bool.false_ne_true hany
        exact hne_m₀ (hx_orig.trans hk.symm)
    constructor
    · rw [List.pairwise_append]
      refine ⟨hPA, ?_, ?_⟩
      · rw [List.pairwise_cons]
        refine ⟨?_, hPB⟩
        intro b hb he
        exact hother b (Or.inr hb) he.symm
      · intro a ha b hb
        rcases List.mem_cons.mp hb with rfl | hb
        · exact hother a (Or.inl ha)
        · exact hPcross a ha b (List.mem_cons_of_mem _ hb)
    · intro m hmem
      rcases List.mem_append.mp hmem with hmA | hmB
      · exact hN m (List.mem_append_left _ hmA)
      · rcases List.mem_cons.mp hmB with rfl | hmB
        · cases htr : truthy (onn.map pyStrip) with
          | false =>
            have hnm : (updatedMed m₀ (onn.map pyStrip) price).name = m₀.name := by
              simp [updatedMed, htr]
            rw [hnm]
            exact hN m₀ (List.mem_append_right _ (List.mem_cons_self _ _))
          | true =>
            obtain ⟨s, hs, hsne, hname⟩ :=
              updatedMed_name_of_truthy m₀ (onn.map pyStrip) price htr
            rw [hname, Option.getD_some, pyStrip_of_map onn s hs]
            exact hsne
        · exact hN m (List.mem_append_right _ (List.mem_cons_of_mem _ hmB))
  · -- delete
    intro name l h
    have hl := delete_ok_eq name meds l h
    subst hl
    constructor
    · exact List.Pairwise.sublist (List.filter_sublist meds) hinv.1
    · intro m hm
      exact hinv.2 m (List.mem_filter.mp hm).1

/-- Closed witness for C7: the invariant holds after a successful create into
a one-record store that satisfies it. -/
theorem store_invariant_preserved_witness :
    StoreInv [⟨some "Aspirin", some (PriceVal.num 5)⟩,
              ⟨some "B", some (PriceVal.num 1)⟩] :=
  (store_invariant_preserved [⟨some "Aspirin", some (PriceVal.num 5)⟩]
      ⟨by simp [List.pairwise_cons], by
        intro m hm
        rw [List.mem_singleton] at hm
        subst hm
        decide⟩).1
    "B" 1 [⟨some "Aspirin", some (PriceVal.num 5)⟩, ⟨some "B", some (PriceVal.num 1)⟩]
    rfl

end MedApp
